import Mathlib

/-!
Shallow embedding of `src/geoiq_scraper.py`.

Strings are modelled as `List Char`.  The regular expressions used by the
scraper are embedded as deterministic greedy scanners; for the four concrete
patterns in the source (`population\s+(\d+)`, `(\d+\.?\d*)\s+square\s+kilometer`,
`male\s+populations?\s+are?\s+(\d+)`, `and\s+(\d+)\s+respectively`) greedy
matching coincides with Python's backtracking semantics, because every
character class that follows a greedy repetition is disjoint from the repeated
class (whitespace after digits, digits after whitespace, letters after
whitespace), so giving characters back can never enable a later item.
Case-insensitive matching (`re.IGNORECASE`) is modelled by ASCII lowercasing,
which agrees with Python on the ASCII literals appearing in the patterns.
Network effects are modelled by `Option`-valued inputs: `none` stands for any
failure raised inside the `try` block (connection error, non-2xx status,
malformed JSON), which the Python code catches and converts to its soft
failure value.
-/

abbrev Str := List Char

/-- ASCII model of Python's `\s` character class (also used by `str.strip`). -/
def isPySpace (c : Char) : Bool :=
  c.toNat = 32 || c.toNat = 9 || c.toNat = 10 || c.toNat = 13 ||
  c.toNat = 11 || c.toNat = 12

/-- ASCII model of Python's `\d` character class: the digits 0-9. -/
def isPyDigit (c : Char) : Bool :=
  48 ≤ c.toNat && c.toNat ≤ 57

/-- ASCII lowercasing on code points, used to model `re.IGNORECASE`. -/
def lowerNat (c : Char) : Nat :=
  if 65 ≤ c.toNat ∧ c.toNat ≤ 90 then c.toNat + 32 else c.toNat

/-- Case-insensitive character comparison (ASCII model of `re.IGNORECASE`). -/
def caselessEq (a b : Char) : Bool :=
  lowerNat a == lowerNat b

/-- Match the literal `lit` case-insensitively at the head of `s`, returning
the remainder on success (embedding of a literal inside an IGNORECASE regex). -/
def litMatch : Str → Str → Option Str
  | [], s => some s
  | _ :: _, [] => none
  | l :: ls, c :: cs => if caselessEq l c then litMatch ls cs else none

/-- Greedy `p+`: take a nonempty maximal run of characters satisfying `p`,
returning the run and the remainder; `none` when the head fails `p`. -/
def takeWhile1 (p : Char → Bool) (s : Str) : Option (Str × Str) :=
  match s.takeWhile p with
  | [] => none
  | c :: cs => some (c :: cs, s.dropWhile p)

/-- Greedy `c?` for a single character, case-insensitive: consume `c` when it
heads the input, otherwise leave the input unchanged. -/
def optChar (c : Char) (s : Str) : Str :=
  match s with
  | [] => []
  | x :: xs => if caselessEq c x then xs else x :: xs

/-- Attempt of the pattern `population\s+(\d+)` at the start of the text,
returning the capture group (embedding of line 58 of the source). -/
def matchPopAt (s : Str) : Option Str :=
  match litMatch ("population".data) s with
  | none => none
  | some r1 =>
    match takeWhile1 isPySpace r1 with
    | none => none
    | some (_, r2) =>
      match takeWhile1 isPyDigit r2 with
      | none => none
      | some (d, _) => some d

/-- Attempt of the pattern `(\d+\.?\d*)\s+square\s+kilometer` at the start of
the text (embedding of line 62 of the source). -/
def matchAreaAt (s : Str) : Option Str :=
  match takeWhile1 isPyDigit s with
  | none => none
  | some (d1, r1) =>
    let dotted := match r1 with
      | '.' :: r2 => (true, r2)
      | _ => (false, r1)
    let d2 := dotted.2.takeWhile isPyDigit
    let r3 := dotted.2.dropWhile isPyDigit
    let grp := d1 ++ (if dotted.1 then ['.'] else []) ++ d2
    match takeWhile1 isPySpace r3 with
    | none => none
    | some (_, r4) =>
      match litMatch ("square".data) r4 with
      | none => none
      | some r5 =>
        match takeWhile1 isPySpace r5 with
        | none => none
        | some (_, r6) =>
          match litMatch ("kilometer".data) r6 with
          | none => none
          | some _ => some grp

/-- Attempt of the pattern `male\s+populations?\s+are?\s+(\d+)` at the start
of the text (embedding of line 66 of the source).  Note the verb part of the
pattern is the literal `ar` followed by an optional `e`. -/
def matchMaleAt (s : Str) : Option Str :=
  match litMatch ("male".data) s with
  | none => none
  | some r1 =>
    match takeWhile1 isPySpace r1 with
    | none => none
    | some (_, r2) =>
      match litMatch ("population".data) r2 with
      | none => none
      | some r3 =>
        match takeWhile1 isPySpace (optChar 's' r3) with
        | none => none
        | some (_, r5) =>
          match litMatch ("ar".data) r5 with
          | none => none
          | some r6 =>
            match takeWhile1 isPySpace (optChar 'e' r6) with
            | none => none
            | some (_, r8) =>
              match takeWhile1 isPyDigit r8 with
              | none => none
              | some (d, _) => some d

/-- Attempt of the pattern `and\s+(\d+)\s+respectively` at the start of the
text (embedding of line 70 of the source). -/
def matchFemaleAt (s : Str) : Option Str :=
  match litMatch ("and".data) s with
  | none => none
  | some r1 =>
    match takeWhile1 isPySpace r1 with
    | none => none
    | some (_, r2) =>
      match takeWhile1 isPyDigit r2 with
      | none => none
      | some (d, r3) =>
        match takeWhile1 isPySpace r3 with
        | none => none
        | some (_, r4) =>
          match litMatch ("respectively".data) r4 with
          | none => none
          | some _ => some d

/-- Embedding of `re.search`: try the attempt function at each position from
left to right and return the first capture; the empty string when no position
matches (the Python code stores `""` for a failed search). -/
def searchFirst (m : Str → Option Str) : Str → Str
  | [] => []
  | c :: cs =>
    match m (c :: cs) with
    | some d => d
    | none => searchFirst m cs

/-- Python's `str.strip`: drop leading and trailing whitespace. -/
def pyStrip (s : Str) : Str :=
  ((s.dropWhile isPySpace).reverse.dropWhile isPySpace).reverse

/-- One output row of the scraper (the dict built by `scrape_geoiq` /
one CSV row of `update_existing_data`). -/
structure Record where
  url : Str
  pincode : Str
  place_name : Str
  population : Str
  area_km2 : Str
  male_population : Str
  female_population : Str
deriving DecidableEq, Repr

/-- A successfully fetched and parsed detail page: the text of the first `h1`
element when present, and the flattened text `soup.get_text(separator=" ")`. -/
structure Page where
  heading : Option Str
  text : Str
deriving DecidableEq, Repr

/-- Embedding of `scrape_geoiq` (lines 35-79 of the source).  The `fetched`
argument is `some page` when the GET request and HTML parse succeed and `none`
on any failure inside the `try` block (the `except` branch, lines 74-79). -/
def scrape_geoiq (url pincode : Str) (fetched : Option Page) : Record :=
  match fetched with
  | some page =>
    { url := url
      pincode := pincode
      place_name := match page.heading with
        | some h => pyStrip h
        | none => []
      population := searchFirst matchPopAt page.text
      area_km2 := searchFirst matchAreaAt page.text
      male_population := searchFirst matchMaleAt page.text
      female_population := searchFirst matchFemaleAt page.text }
  | none =>
    { url := url, pincode := pincode, place_name := [], population := []
      area_km2 := [], male_population := [], female_population := [] }

/-- One entry of the `body` array returned by the search endpoint. -/
structure Candidate where
  name : Str
  id : Str
deriving DecidableEq, Repr

/-- The separator used by `name.split(" - ", 1)`. -/
def sepDash : Str := " - ".data

/-- Python's `s.split(sep, 1)` restricted to the two-part success case: split
at the first occurrence of `sep`; `none` when `sep` does not occur (in the
source that case raises `ValueError` at the tuple unpacking on line 27, which
the surrounding `except` turns into `None`). -/
def splitOnce (sep : Str) : Str → Option (Str × Str)
  | [] => none
  | c :: cs =>
    if sep.isPrefixOf (c :: cs) then some ([], (c :: cs).drop sep.length)
    else
      match splitOnce sep cs with
      | some (a, b) => some (c :: a, b)
      | none => none

/-- Embedding of `place_part.replace(",", "")`. -/
def removeCommas (s : Str) : Str := s.filter (fun c => c != ',')

/-- Embedding of `place_part.replace(" ", "-")`. -/
def spacesToHyphens (s : Str) : Str := s.map (fun c => if c = ' ' then '-' else c)

/-- Embedding of the f-string on line 29 of the source. -/
def mkPlaceUrl (pincodePart placePart id : Str) : Str :=
  "https://geoiq.io/places/".data ++ pincodePart ++ "---".data ++ placePart ++ '/' :: id

/-- Embedding of the loop on lines 23-24: the first candidate whose `name`
starts with the pincode (Python `str.startswith`, case-sensitive). -/
def findCandidate (pincode : Str) : List Candidate → Option Candidate
  | [] => none
  | p :: ps => if pincode.isPrefixOf p.name then some p else findCandidate pincode ps

/-- Embedding of `get_geoiq_url_for_pincode` (lines 8-33 of the source).  The
`response` argument is `some body` when the POST request succeeds and its JSON
has a `body` array, and `none` on any request failure (the `except` branch).
A selected candidate whose name has no `" - "` raises `ValueError` inside the
`try`, so the whole call returns `None`; later candidates are not examined. -/
def get_geoiq_url_for_pincode (pincode : Str) (response : Option (List Candidate)) :
    Option Str :=
  match response with
  | none => none
  | some body =>
    match findCandidate pincode body with
    | none => none
    | some place =>
      match splitOnce sepDash place.name with
      | none => none
      | some (pp, rest) =>
        some (mkPlaceUrl pp (spacesToHyphens (removeCommas rest)) place.id)

/-- Python truthiness of `row.get(field, '').strip()`: the field is blank when
stripping leaves the empty string. -/
def blank (s : Str) : Bool := (pyStrip s).isEmpty

/-- Merge of one field by the loop on lines 114-116: overwrite exactly when
the existing value is blank and the new value is not. -/
def mergeField (e n : Str) : Str :=
  if blank e && !(blank n) then n else e

/-- Merge of one stored row with one newly fetched row (lines 112-116): the
six listed fields are merged; `pincode` is not in the field list and is kept. -/
def mergeRecord (e n : Record) : Record :=
  { e with
    population := mergeField e.population n.population
    area_km2 := mergeField e.area_km2 n.area_km2
    male_population := mergeField e.male_population n.male_population
    female_population := mergeField e.female_population n.female_population
    place_name := mergeField e.place_name n.place_name
    url := mergeField e.url n.url }

/-- Python dict assignment `existing_data[row['pincode']] = row`: replace the
value at an existing key in place, otherwise append at the end (dicts preserve
first-insertion order of keys). -/
def upsertRow (m : List Record) (r : Record) : List Record :=
  match m with
  | [] => [r]
  | x :: xs => if x.pincode = r.pincode then r :: xs else x :: upsertRow xs r

/-- The read loop on lines 102-106: fold the CSV rows into the dict. -/
def buildTable (rows : List Record) : List Record :=
  rows.foldl upsertRow []

/-- The update loop body on lines 109-116 for one new row: when its pincode is
a key of the dict, merge into that entry in place; otherwise do nothing. -/
def applyNewRow (m : List Record) (n : Record) : List Record :=
  match m with
  | [] => []
  | x :: xs => if x.pincode = n.pincode then mergeRecord x n :: xs else x :: applyNewRow xs n

/-- Embedding of `update_existing_data` (lines 99-128): read the existing CSV
into a dict, merge the new rows, and return the rows written (the dict values
in key order) together with the returned `len(existing_data)`. -/
def update_existing_data (existingRows newData : List Record) : List Record × Nat :=
  let m := buildTable existingRows
  let m2 := newData.foldl applyNewRow m
  (m2, m2.length)

/-- Pointwise case-insensitive equality of two strings of the same length. -/
def caselessList : Str → Str → Bool
  | [], [] => true
  | a :: l1, b :: l2 => caselessEq a b && caselessList l1 l2
  | _, _ => false

/-- The head of `b`, when it exists, fails `p` (used to state that a greedy
run `p+`/`p*` stops exactly at the boundary of a decomposition). -/
def headNot (p : Char → Bool) (b : Str) : Bool :=
  match b with
  | [] => true
  | c :: _ => !p c

/-- The pincodes of the rows of a table, in row order (the dict key list). -/
def tableKeys (m : List Record) : List Str :=
  m.map Record.pincode

/-- Lookup of the first row with the given pincode (dict lookup on a table
whose keys are unique). -/
def findByPincode (m : List Record) (p : Str) : Option Record :=
  m.find? (fun r => r.pincode == p)

/-- Variant of the population pattern written from the claim's words, with the
separating whitespace optional: `population\s*(\d+)`.  Used only to compare
the claimed behaviour with the source behaviour. -/
def matchPopClaimedAt (s : Str) : Option Str :=
  match litMatch ("population".data) s with
  | none => none
  | some r1 =>
    match takeWhile1 isPyDigit (r1.dropWhile isPySpace) with
    | none => none
    | some (d, _) => some d

/-- Variant of the male-population pattern written from the claim's words,
accepting both the `are` and `is` forms of the verb:
`male\s+populations?\s+(are|is)\s+(\d+)`.  Used only to compare the claimed
behaviour with the source behaviour. -/
def matchMaleClaimedAt (s : Str) : Option Str :=
  match litMatch ("male".data) s with
  | none => none
  | some r1 =>
    match takeWhile1 isPySpace r1 with
    | none => none
    | some (_, r2) =>
      match litMatch ("population".data) r2 with
      | none => none
      | some r3 =>
        match takeWhile1 isPySpace (optChar 's' r3) with
        | none => none
        | some (_, r5) =>
          match (litMatch ("are".data) r5).or (litMatch ("is".data) r5) with
          | none => none
          | some r6 =>
            match takeWhile1 isPySpace r6 with
            | none => none
            | some (_, r7) =>
              match takeWhile1 isPyDigit r7 with
              | none => none
              | some (d, _) => some d

/-- Concrete search candidate used by witnesses (the spec's own example). -/
def candMJ : Candidate :=
  ⟨"500081 - MJ Market, Hyderabad".data, "abc9".data⟩

/-- Concrete stored row with a populated url and blank demographics. -/
def rowGapE : Record :=
  ⟨"ua".data, "1".data, "Old Place".data, [], [], [], []⟩

/-- Concrete stored row with every field populated. -/
def rowFullB : Record :=
  ⟨"ub".data, "2".data, "B Place".data, "10".data, "3.5".data, "6".data, "4".data⟩

/-- Concrete freshly fetched row whose pincode matches no stored row. -/
def rowNewC : Record :=
  ⟨"uc".data, "3".data, "C Place".data, "7".data, "1.0".data, "4".data, "3".data⟩

/-- Concrete fully populated fetched row with pincode 1. -/
def rowNew1 : Record :=
  ⟨"u2".data, "1".data, "New Place".data, "11".data, "2.5".data, "6".data, "5".data⟩

/-- First of two stored rows sharing pincode 9. -/
def rowDupA : Record :=
  ⟨"u1".data, "9".data, "First".data, [], [], [], []⟩

/-- Second of two stored rows sharing pincode 9. -/
def rowDupB : Record :=
  ⟨"u2".data, "9".data, "Second".data, "5".data, [], [], []⟩

/-! Lemmas about the resolver. -/

theorem findCandidate_eq_none_of_no_match (pincode : Str) (body : List Candidate)
    (h : ∀ c ∈ body, pincode.isPrefixOf c.name = false) :
    findCandidate pincode body = none := by
  induction body with
  | nil => rfl
  | cons x xs ih =>
    have hx := h x (List.mem_cons_self x xs)
    simp only [findCandidate, hx, Bool.false_eq_true, if_false]
    exact ih fun c hc => h c (List.mem_cons_of_mem x hc)

theorem findCandidate_append_first (pincode : Str) (pre post : List Candidate)
    (place : Candidate)
    (hpre : ∀ c ∈ pre, pincode.isPrefixOf c.name = false)
    (hmatch : pincode.isPrefixOf place.name = true) :
    findCandidate pincode (pre ++ place :: post) = some place := by
  induction pre with
  | nil => simp [findCandidate, hmatch]
  | cons x xs ih =>
    have hx := hpre x (List.mem_cons_self x xs)
    simp only [List.cons_append, findCandidate, hx, Bool.false_eq_true, if_false]
    exact ih fun c hc => hpre c (List.mem_cons_of_mem x hc)

theorem findCandidate_some_isPrefixOf (pincode : Str) (body : List Candidate)
    (place : Candidate) (h : findCandidate pincode body = some place) :
    pincode.isPrefixOf place.name = true := by
  induction body with
  | nil => simp [findCandidate] at h
  | cons x xs ih =>
    cases hx : pincode.isPrefixOf x.name with
    | true =>
      simp only [findCandidate, hx, if_true, Option.some.injEq] at h
      subst h; exact hx
    | false =>
      simp only [findCandidate, hx, Bool.false_eq_true, if_false] at h
      exact ih h

theorem splitOnce_eq_none_of_not_infix (sep s : Str) (h : ¬ sep <:+: s) :
    splitOnce sep s = none := by
  induction s with
  | nil => rfl
  | cons c cs ih =>
    have h1 : sep.isPrefixOf (c :: cs) = false := by
      cases hp : sep.isPrefixOf (c :: cs)
      · rfl
      · exact absurd (List.isPrefixOf_iff_prefix.mp hp).isInfix h
    have h2 : splitOnce sep cs = none := ih fun hinf => h (List.infix_cons hinf)
    simp [splitOnce, h1, h2]

/-- C1: for every candidate list returned by the search endpoint, resolve
returns `NotFound` when no candidate's `name` starts with the pincode, and
otherwise selects the first candidate (in list order) whose `name` starts with
the literal pincode string, case-sensitively, and builds the URL from that
candidate (splitting its name at the first `" - "`). -/
theorem resolve_selects_first_match (pincode : Str) (body pre post : List Candidate)
    (place : Candidate) (pp rest : Str) :
    ((∀ c ∈ body, pincode.isPrefixOf c.name = false) →
      get_geoiq_url_for_pincode pincode (some body) = none) ∧
    (body = pre ++ place :: post →
      (∀ c ∈ pre, pincode.isPrefixOf c.name = false) →
      pincode.isPrefixOf place.name = true →
      splitOnce sepDash place.name = some (pp, rest) →
      get_geoiq_url_for_pincode pincode (some body) =
        some (mkPlaceUrl pp (spacesToHyphens (removeCommas rest)) place.id)) := by
  constructor
  · intro h
    simp [get_geoiq_url_for_pincode, findCandidate_eq_none_of_no_match pincode body h]
  · intro hbody hpre hmatch hsplit
    subst hbody
    simp [get_geoiq_url_for_pincode,
      findCandidate_append_first pincode pre post place hpre hmatch, hsplit]

/-- Witness for C1 at the spec's concrete example and at an empty list. -/
theorem resolve_selects_first_match_witness :
    get_geoiq_url_for_pincode "500081".data (some [candMJ]) =
      some (mkPlaceUrl "500081".data
        (spacesToHyphens (removeCommas "MJ Market, Hyderabad".data)) candMJ.id) ∧
    get_geoiq_url_for_pincode "999".data (some []) = none := by
  constructor
  · exact (resolve_selects_first_match "500081".data [candMJ] [] [] candMJ
      "500081".data "MJ Market, Hyderabad".data).2 rfl (by decide) (by decide) (by decide)
  · exact (resolve_selects_first_match "999".data [] [] [] candMJ [] []).1 (by decide)

/-- C3: on any fetch or parse failure, extract returns (rather than raises) a
record carrying the given `url` and `pincode` with every other field empty. -/
theorem extract_failure_soft_record (url pincode : Str) :
    (scrape_geoiq url pincode none).url = url ∧
    (scrape_geoiq url pincode none).pincode = pincode ∧
    (scrape_geoiq url pincode none).place_name = [] ∧
    (scrape_geoiq url pincode none).population = [] ∧
    (scrape_geoiq url pincode none).area_km2 = [] ∧
    (scrape_geoiq url pincode none).male_population = [] ∧
    (scrape_geoiq url pincode none).female_population = [] :=
  ⟨rfl, rfl, rfl, rfl, rfl, rfl, rfl⟩

/-- C7: when the first candidate whose name starts with the pincode contains
no occurrence of `" - "`, resolve returns `NotFound` instead of raising or
returning a malformed URL. -/
theorem resolve_no_separator_notfound (pincode : Str) (pre post : List Candidate)
    (place : Candidate)
    (hpre : ∀ c ∈ pre, pincode.isPrefixOf c.name = false)
    (hmatch : pincode.isPrefixOf place.name = true)
    (hnodash : ¬ sepDash <:+: place.name) :
    get_geoiq_url_for_pincode pincode (some (pre ++ place :: post)) = none := by
  simp [get_geoiq_url_for_pincode,
    findCandidate_append_first pincode pre post place hpre hmatch,
    splitOnce_eq_none_of_not_infix sepDash place.name hnodash]

/-- Witness for C7 at a candidate whose name has spaces but no `" - "`. -/
theorem resolve_no_separator_notfound_witness :
    get_geoiq_url_for_pincode "12345".data
      (some [⟨"12345 Market Lane".data, "id7".data⟩]) = none :=
  resolve_no_separator_notfound "12345".data [] [] ⟨"12345 Market Lane".data, "id7".data⟩
    (by decide) (by decide) (by decide)

/-- C9: because the male-population pattern is matched case-insensitively
anywhere in the text, it matches inside the word `female`: on a page whose
only demographic sentence is `female populations are 22000`, extract returns
the female figure as `male_population`, not blank. -/
theorem male_pattern_matches_inside_female :
    (scrape_geoiq "u".data "p".data
        (some ⟨none, "female populations are 22000".data⟩)).male_population =
      "22000".data := by decide

/-- C2: the merge overwrites exactly the fields that are blank in the stored
record and non-blank in the new record; populated fields always keep their
stored value, `pincode` is never touched, an all-blank-fields stored record
merged with a fully populated new record takes the new demographic values, and
a fully populated stored record is left entirely unchanged. -/
theorem merge_overwrites_only_blank_fields (e n : Record) :
    (mergeRecord e n).pincode = e.pincode ∧
    (blank e.url = false → (mergeRecord e n).url = e.url) ∧
    (blank e.url = true → blank n.url = false → (mergeRecord e n).url = n.url) ∧
    (blank n.url = true → (mergeRecord e n).url = e.url) ∧
    (blank e.place_name = false → (mergeRecord e n).place_name = e.place_name) ∧
    (blank e.place_name = true → blank n.place_name = false →
      (mergeRecord e n).place_name = n.place_name) ∧
    (blank n.place_name = true → (mergeRecord e n).place_name = e.place_name) ∧
    (blank e.population = false → (mergeRecord e n).population = e.population) ∧
    (blank e.population = true → blank n.population = false →
      (mergeRecord e n).population = n.population) ∧
    (blank n.population = true → (mergeRecord e n).population = e.population) ∧
    (blank e.area_km2 = false → (mergeRecord e n).area_km2 = e.area_km2) ∧
    (blank e.area_km2 = true → blank n.area_km2 = false →
      (mergeRecord e n).area_km2 = n.area_km2) ∧
    (blank n.area_km2 = true → (mergeRecord e n).area_km2 = e.area_km2) ∧
    (blank e.male_population = false →
      (mergeRecord e n).male_population = e.male_population) ∧
    (blank e.male_population = true → blank n.male_population = false →
      (mergeRecord e n).male_population = n.male_population) ∧
    (blank n.male_population = true →
      (mergeRecord e n).male_population = e.male_population) ∧
    (blank e.female_population = false →
      (mergeRecord e n).female_population = e.female_population) ∧
    (blank e.female_population = true → blank n.female_population = false →
      (mergeRecord e n).female_population = n.female_population) ∧
    (blank n.female_population = true →
      (mergeRecord e n).female_population = e.female_population) ∧
    (blank e.population = true → blank e.area_km2 = true →
      blank e.male_population = true → blank e.female_population = true →
      blank n.population = false → blank n.area_km2 = false →
      blank n.male_population = false → blank n.female_population = false →
      (mergeRecord e n).population = n.population ∧
      (mergeRecord e n).area_km2 = n.area_km2 ∧
      (mergeRecord e n).male_population = n.male_population ∧
      (mergeRecord e n).female_population = n.female_population) ∧
    (blank e.url = false → blank e.place_name = false → blank e.population = false →
      blank e.area_km2 = false → blank e.male_population = false →
      blank e.female_population = false → mergeRecord e n = e) := by
  unfold mergeRecord mergeField
  refine ⟨rfl, ?_, ?_, ?_, ?_, ?_, ?_, ?_, ?_, ?_, ?_, ?_, ?_, ?_, ?_, ?_, ?_, ?_, ?_,
    ?_, ?_⟩ <;> intros <;> simp_all

/-- Witness for C2: blank demographics take the new values while the populated
url keeps the stored value. -/
theorem merge_overwrites_only_blank_fields_witness :
    (mergeRecord rowGapE rowNew1).population = rowNew1.population ∧
    (mergeRecord rowGapE rowNew1).url = rowGapE.url ∧
    (mergeRecord rowFullB rowNewC) = rowFullB := by
  obtain ⟨hpin, hu1, hu2, hu3, hn1, hn2, hn3, hp1, hp2, hp3, ha1, ha2, ha3,
    hm1, hm2, hm3, hf1, hf2, hf3, hall, hkeep⟩ :=
    merge_overwrites_only_blank_fields rowGapE rowNew1
  obtain ⟨_, _, _, _, _, _, _, _, _, _, _, _, _, _, _, _, _, _, _, _, hkeepB⟩ :=
    merge_overwrites_only_blank_fields rowFullB rowNewC
  exact ⟨hp2 (by decide) (by decide), hu1 (by decide),
    hkeepB (by decide) (by decide) (by decide) (by decide) (by decide) (by decide)⟩

theorem splitOnce_fst_prefix (sep : Str) :
    ∀ (name pincode pp rest : Str), pincode <+: name →
      (∀ c ∈ pincode, isPySpace c = false) →
      sep = sepDash →
      splitOnce sep name = some (pp, rest) → pincode <+: pp := by
  intro name
  induction name with
  | nil => intro pincode pp rest _ _ _ h; simp [splitOnce] at h
  | cons c cs ih =>
    intro pincode pp rest hpre hns hsep h
    by_cases hp : sep.isPrefixOf (c :: cs)
    · simp only [splitOnce, hp, if_true, Option.some.injEq, Prod.mk.injEq] at h
      obtain ⟨hpp, _⟩ := h
      subst hpp
      cases pincode with
      | nil => exact List.nil_prefix
      | cons p ps =>
        have hsp : sep <+: c :: cs := List.isPrefixOf_iff_prefix.mp hp
        have hc : ' ' = c := by
          subst hsep
          have hsd : sepDash = ' ' :: '-' :: ' ' :: [] := rfl
          rw [hsd] at hsp
          exact (List.cons_prefix_cons.mp hsp).1
        have hpc : p = c := (List.cons_prefix_cons.mp hpre).1
        have : isPySpace p = false := hns p (List.mem_cons_self p ps)
        rw [hpc, ← hc] at this
        simp [isPySpace] at this
    · simp only [splitOnce, hp, Bool.false_eq_true, if_false] at h
      cases hrec : splitOnce sep cs with
      | none => rw [hrec] at h; simp at h
      | some ab =>
        rw [hrec] at h
        obtain ⟨a, b⟩ := ab
        simp only [Option.some.injEq, Prod.mk.injEq] at h
        obtain ⟨hpp, _⟩ := h
        subst hpp
        cases pincode with
        | nil => exact List.nil_prefix
        | cons p ps =>
          obtain ⟨hpc, hps⟩ := List.cons_prefix_cons.mp hpre
          subst hpc
          have := ih ps a b hps (fun x hx => hns x (List.mem_cons_of_mem p hx)) hsep hrec
          exact List.cons_prefix_cons.mpr ⟨rfl, this⟩

/-- C4: resolve never raises: for a pincode containing no whitespace it either
returns `NotFound` or a URL string containing the pincode, and every network,
status, or response-shape failure (the `none` response) yields `NotFound`. -/
theorem resolve_never_raises (pincode : Str) (response : Option (List Candidate))
    (hns : ∀ c ∈ pincode, isPySpace c = false) :
    get_geoiq_url_for_pincode pincode response = none ∨
    ∃ u, get_geoiq_url_for_pincode pincode response = some u ∧ pincode <:+: u := by
  match response with
  | none => exact Or.inl rfl
  | some body =>
    cases hf : findCandidate pincode body with
    | none => exact Or.inl (by simp [get_geoiq_url_for_pincode, hf])
    | some place =>
      cases hs : splitOnce sepDash place.name with
      | none => exact Or.inl (by simp [get_geoiq_url_for_pincode, hf, hs])
      | some pr =>
        obtain ⟨pp, rest⟩ := pr
        refine Or.inr ⟨mkPlaceUrl pp (spacesToHyphens (removeCommas rest)) place.id,
          by simp [get_geoiq_url_for_pincode, hf, hs], ?_⟩
        have hpre : pincode <+: place.name :=
          List.isPrefixOf_iff_prefix.mp (findCandidate_some_isPrefixOf pincode body place hf)
        have hpp : pincode <+: pp :=
          splitOnce_fst_prefix sepDash place.name pincode pp rest hpre hns rfl hs
        obtain ⟨t, ht⟩ := hpp
        refine ⟨"https://geoiq.io/places/".data,
          t ++ "---".data ++ spacesToHyphens (removeCommas rest) ++ '/' :: place.id, ?_⟩
        rw [mkPlaceUrl, ← ht]
        simp [List.append_assoc]

/-- Witness for C4 at the spec's concrete candidate. -/
theorem resolve_never_raises_witness :
    (∀ c ∈ ("500081".data : Str), isPySpace c = false) ∧
    (get_geoiq_url_for_pincode "500081".data (some [candMJ]) = none ∨
     ∃ u, get_geoiq_url_for_pincode "500081".data (some [candMJ]) = some u ∧
       ("500081".data : Str) <:+: u) :=
  ⟨by decide, resolve_never_raises "500081".data (some [candMJ]) (by decide)⟩

/-! Lemmas about the gap-fill table merge. -/

theorem mergeRecord_pincode (e n : Record) : (mergeRecord e n).pincode = e.pincode := rfl

theorem upsertRow_keys_of_mem (m : List Record) (r : Record)
    (h : r.pincode ∈ tableKeys m) : tableKeys (upsertRow m r) = tableKeys m := by
  induction m with
  | nil => simp [tableKeys] at h
  | cons x xs ih =>
    by_cases hx : x.pincode = r.pincode
    · simp [upsertRow, tableKeys, hx]
    · have hm : r.pincode ∈ tableKeys xs := by
        simp only [tableKeys, List.map_cons, List.mem_cons] at h
        exact h.resolve_left fun he => hx he.symm
      have h2 := ih hm
      simp only [tableKeys] at h2
      simp only [upsertRow, if_neg hx, tableKeys, List.map_cons, h2]

theorem upsertRow_keys_of_not_mem (m : List Record) (r : Record)
    (h : r.pincode ∉ tableKeys m) :
    tableKeys (upsertRow m r) = tableKeys m ++ [r.pincode] := by
  induction m with
  | nil => simp [upsertRow, tableKeys]
  | cons x xs ih =>
    have hx : ¬ x.pincode = r.pincode := by
      intro he; exact h (by simp [tableKeys, he])
    have hxs : r.pincode ∉ tableKeys xs := by
      intro hm
      exact h (by
        simp only [tableKeys, List.map_cons, List.mem_cons]
        exact Or.inr (by simpa [tableKeys] using hm))
    have h2 := ih hxs
    simp only [tableKeys] at h2
    simp only [upsertRow, if_neg hx, tableKeys, List.map_cons, h2, List.cons_append]

theorem mem_tableKeys_upsertRow (m : List Record) (r : Record) (p : Str) :
    p ∈ tableKeys (upsertRow m r) ↔ p ∈ tableKeys m ∨ p = r.pincode := by
  by_cases hm : r.pincode ∈ tableKeys m
  · rw [upsertRow_keys_of_mem m r hm]
    constructor
    · exact Or.inl
    · rintro (h | h)
      · exact h
      · rw [h]; exact hm
  · rw [upsertRow_keys_of_not_mem m r hm]
    simp

theorem upsertRow_keys_nodup (m : List Record) (r : Record)
    (h : (tableKeys m).Nodup) : (tableKeys (upsertRow m r)).Nodup := by
  by_cases hm : r.pincode ∈ tableKeys m
  · rw [upsertRow_keys_of_mem m r hm]; exact h
  · rw [upsertRow_keys_of_not_mem m r hm]
    simp [List.nodup_append, h, hm]

theorem foldl_upsertRow_keys_nodup :
    ∀ (rows : List Record) (m : List Record), (tableKeys m).Nodup →
      (tableKeys (rows.foldl upsertRow m)).Nodup := by
  intro rows
  induction rows with
  | nil => intro m h; exact h
  | cons r rs ih => intro m h; exact ih (upsertRow m r) (upsertRow_keys_nodup m r h)

theorem mem_tableKeys_foldl_upsertRow :
    ∀ (rows : List Record) (m : List Record) (p : Str),
      p ∈ tableKeys (rows.foldl upsertRow m) ↔ p ∈ tableKeys m ∨ p ∈ tableKeys rows := by
  intro rows
  induction rows with
  | nil => intro m p; simp [tableKeys]
  | cons r rs ih =>
    intro m p
    rw [List.foldl_cons, ih (upsertRow m r) p, mem_tableKeys_upsertRow]
    simp only [tableKeys, List.map_cons, List.mem_cons]
    tauto

theorem buildTable_keys_nodup (rows : List Record) :
    (tableKeys (buildTable rows)).Nodup :=
  foldl_upsertRow_keys_nodup rows [] (by simp [tableKeys])

theorem mem_tableKeys_buildTable (rows : List Record) (p : Str) :
    p ∈ tableKeys (buildTable rows) ↔ p ∈ tableKeys rows := by
  rw [buildTable, mem_tableKeys_foldl_upsertRow]
  simp [tableKeys]

theorem buildTable_length (rows : List Record) :
    (buildTable rows).length = (tableKeys rows).toFinset.card := by
  have h1 : (buildTable rows).length = (tableKeys (buildTable rows)).length := by
    simp [tableKeys]
  rw [h1, ← List.toFinset_card_of_nodup (buildTable_keys_nodup rows)]
  apply congrArg Finset.card
  apply Finset.ext
  intro p
  simp only [List.mem_toFinset]
  exact mem_tableKeys_buildTable rows p

theorem applyNewRow_keys (m : List Record) (n : Record) :
    tableKeys (applyNewRow m n) = tableKeys m := by
  induction m with
  | nil => rfl
  | cons x xs ih =>
    by_cases hx : x.pincode = n.pincode
    · simp only [applyNewRow, if_pos hx, tableKeys, List.map_cons, mergeRecord_pincode]
    · have h2 := ih
      simp only [tableKeys] at h2
      simp only [applyNewRow, if_neg hx, tableKeys, List.map_cons, h2]

theorem foldl_applyNewRow_keys :
    ∀ (newData : List Record) (m : List Record),
      tableKeys (newData.foldl applyNewRow m) = tableKeys m := by
  intro newData
  induction newData with
  | nil => intro m; rfl
  | cons n ns ih => intro m; rw [List.foldl_cons, ih, applyNewRow_keys]

theorem applyNewRow_of_not_mem (m : List Record) (n : Record)
    (h : n.pincode ∉ tableKeys m) : applyNewRow m n = m := by
  induction m with
  | nil => rfl
  | cons x xs ih =>
    have hx : ¬ x.pincode = n.pincode := by
      intro he; exact h (by simp [tableKeys, he])
    have hxs : n.pincode ∉ tableKeys xs := by
      intro hm
      exact h (by
        simp only [tableKeys, List.map_cons, List.mem_cons]
        exact Or.inr (by simpa [tableKeys] using hm))
    simp only [applyNewRow, if_neg hx]
    rw [ih hxs]

theorem mem_applyNewRow_of_ne (m : List Record) (n r : Record)
    (hr : r ∈ m) (hne : r.pincode ≠ n.pincode) : r ∈ applyNewRow m n := by
  induction m with
  | nil => simp at hr
  | cons x xs ih =>
    by_cases hx : x.pincode = n.pincode
    · simp only [applyNewRow, hx, if_true]
      rcases List.mem_cons.mp hr with h | h
      · exact absurd (h ▸ hx) hne
      · exact List.mem_cons_of_mem _ h
    · simp only [applyNewRow, hx, if_false]
      rcases List.mem_cons.mp hr with h | h
      · exact h ▸ List.mem_cons_self x _
      · exact List.mem_cons_of_mem _ (ih h)

theorem mem_foldl_applyNewRow :
    ∀ (newData : List Record) (m : List Record) (r : Record), r ∈ m →
      (∀ x ∈ newData, r.pincode ≠ x.pincode) → r ∈ newData.foldl applyNewRow m := by
  intro newData
  induction newData with
  | nil => intro m r hr _; exact hr
  | cons n ns ih =>
    intro m r hr hne
    rw [List.foldl_cons]
    exact ih (applyNewRow m n) r
      (mem_applyNewRow_of_ne m n r hr (hne n (List.mem_cons_self n ns)))
      (fun x hx => hne x (List.mem_cons_of_mem n hx))

theorem foldl_applyNewRow_skip :
    ∀ (l1 : List Record) (n : Record) (l2 : List Record) (m : List Record),
      n.pincode ∉ tableKeys m →
      (l1 ++ n :: l2).foldl applyNewRow m = (l1 ++ l2).foldl applyNewRow m := by
  intro l1
  induction l1 with
  | nil =>
    intro n l2 m h
    simp only [List.nil_append, List.foldl_cons]
    rw [applyNewRow_of_not_mem m n h]
  | cons a l1 ih =>
    intro n l2 m h
    simp only [List.cons_append, List.foldl_cons]
    exact ih n l2 (applyNewRow m a) (by rwa [applyNewRow_keys])

/-- C8: the gap-fill merge never adds rows: the written table has exactly the
keys of the table read from the existing CSV, a new record whose pincode is
not a key of the existing table is discarded without effect, existing rows
whose pincode matches no new record are written back unchanged, and the
number of rows written (and the returned count) equals the number of
distinct-pincode rows read. -/
theorem gapfill_never_adds_rows (existingRows newData newData1 newData2 : List Record)
    (n r : Record) :
    (tableKeys (update_existing_data existingRows newData).1 =
      tableKeys (buildTable existingRows)) ∧
    (n.pincode ∉ tableKeys (buildTable existingRows) →
      (update_existing_data existingRows (newData1 ++ n :: newData2)).1 =
        (update_existing_data existingRows (newData1 ++ newData2)).1) ∧
    (r ∈ buildTable existingRows → (∀ x ∈ newData, r.pincode ≠ x.pincode) →
      r ∈ (update_existing_data existingRows newData).1) ∧
    ((update_existing_data existingRows newData).1.length =
      (tableKeys existingRows).toFinset.card) ∧
    ((update_existing_data existingRows newData).2 =
      (update_existing_data existingRows newData).1.length) := by
  refine ⟨?_, ?_, ?_, ?_, rfl⟩
  · exact foldl_applyNewRow_keys newData (buildTable existingRows)
  · intro h
    exact congrArg (fun t => t) (foldl_applyNewRow_skip newData1 n newData2
      (buildTable existingRows) h)
  · intro hr hne
    exact mem_foldl_applyNewRow newData (buildTable existingRows) r hr hne
  · have h0 : (update_existing_data existingRows newData).1 =
        newData.foldl applyNewRow (buildTable existingRows) := rfl
    rw [h0]
    have h1 : (newData.foldl applyNewRow (buildTable existingRows)).length =
        (tableKeys (newData.foldl applyNewRow (buildTable existingRows))).length := by
      simp [tableKeys]
    rw [h1, foldl_applyNewRow_keys]
    have h2 : (tableKeys (buildTable existingRows)).length =
        (buildTable existingRows).length := by
      simp [tableKeys]
    rw [h2, buildTable_length]

/-- Witness for C8: a new record with an unseen pincode is discarded, and a
stored row untouched by the new data survives the merge unchanged. -/
theorem gapfill_never_adds_rows_witness :
    (update_existing_data [rowGapE, rowFullB] ([] ++ rowNewC :: [])).1 =
      (update_existing_data [rowGapE, rowFullB] ([] ++ [])).1 ∧
    rowGapE ∈ (update_existing_data [rowGapE, rowFullB] [rowNewC]).1 := by
  constructor
  · exact (gapfill_never_adds_rows [rowGapE, rowFullB] [rowNewC] [] []
      rowNewC rowGapE).2.1 (by decide)
  · exact (gapfill_never_adds_rows [rowGapE, rowFullB] [rowNewC] [] []
      rowNewC rowGapE).2.2.1 (by decide) (by decide)

theorem findByPincode_upsertRow (m : List Record) (r : Record) (p : Str) :
    findByPincode (upsertRow m r) p =
      if r.pincode = p then some r else findByPincode m p := by
  induction m with
  | nil =>
    by_cases h : r.pincode = p
    · have hb : (r.pincode == p) = true := beq_iff_eq.mpr h
      simp [findByPincode, upsertRow, List.find?, hb, h]
    · have hb : (r.pincode == p) = false := beq_eq_false_iff_ne.mpr h
      simp [findByPincode, upsertRow, List.find?, hb, h]
  | cons x xs ih =>
    simp only [upsertRow]
    by_cases hx : x.pincode = r.pincode
    · rw [if_pos hx]
      by_cases hrp : r.pincode = p
      · have hb : (r.pincode == p) = true := beq_iff_eq.mpr hrp
        simp [findByPincode, List.find?_cons, hb, hrp]
      · have hb : (r.pincode == p) = false := beq_eq_false_iff_ne.mpr hrp
        have hxp : (x.pincode == p) = false :=
          beq_eq_false_iff_ne.mpr fun he => hrp (hx ▸ he)
        simp [findByPincode, List.find?_cons, hb, hxp, hrp]
    · rw [if_neg hx]
      by_cases hxp : x.pincode = p
      · have hrp : ¬ r.pincode = p := fun he => hx (hxp.trans he.symm)
        have hbx : (x.pincode == p) = true := beq_iff_eq.mpr hxp
        simp [findByPincode, List.find?_cons, hbx, hrp]
      · have hbx : (x.pincode == p) = false := beq_eq_false_iff_ne.mpr hxp
        simp only [findByPincode, List.find?_cons, hbx]
        simp only [findByPincode] at ih
        exact ih

theorem findByPincode_foldl_upsertRow :
    ∀ (rows : List Record) (m : List Record) (p : Str),
      findByPincode (rows.foldl upsertRow m) p =
        (rows.reverse.find? (fun r => r.pincode == p)).or (findByPincode m p) := by
  intro rows
  induction rows with
  | nil => intro m p; simp [findByPincode]
  | cons r rs ih =>
    intro m p
    rw [List.foldl_cons, ih (upsertRow m r) p, findByPincode_upsertRow]
    rw [List.reverse_cons, List.find?_append]
    by_cases hrp : r.pincode = p
    · have hb : (r.pincode == p) = true := beq_iff_eq.mpr hrp
      rw [if_pos hrp]
      cases hfind : rs.reverse.find? (fun x => x.pincode == p) <;>
        simp [List.find?, hb, hfind, Option.or]
    · have hb : (r.pincode == p) = false := beq_eq_false_iff_ne.mpr hrp
      rw [if_neg hrp]
      cases hfind : rs.reverse.find? (fun x => x.pincode == p) <;>
        simp [List.find?, hb, hfind, Option.or]

theorem findByPincode_buildTable (rows : List Record) (p : Str) :
    findByPincode (buildTable rows) p = rows.reverse.find? (fun r => r.pincode == p) := by
  rw [buildTable, findByPincode_foldl_upsertRow]
  simp [findByPincode]

theorem findByPincode_applyNewRow (m : List Record) (n : Record) (p : Str)
    (h : n.pincode ≠ p) :
    findByPincode (applyNewRow m n) p = findByPincode m p := by
  induction m with
  | nil => rfl
  | cons x xs ih =>
    by_cases hx : x.pincode = n.pincode
    · have hxp : (x.pincode == p) = false :=
        beq_eq_false_iff_ne.mpr fun he => h (hx ▸ he)
      have hmp : ((mergeRecord x n).pincode == p) = false := by
        rw [mergeRecord_pincode]; exact hxp
      simp only [applyNewRow, if_pos hx]
      simp [findByPincode, List.find?_cons, hxp, hmp]
    · simp only [applyNewRow, if_neg hx]
      simp only [findByPincode, List.find?_cons]
      simp only [findByPincode] at ih
      cases hxp : (x.pincode == p) <;> simp [hxp, ih]

theorem findByPincode_foldl_applyNewRow :
    ∀ (newData : List Record) (m : List Record) (p : Str),
      (∀ x ∈ newData, x.pincode ≠ p) →
      findByPincode (newData.foldl applyNewRow m) p = findByPincode m p := by
  intro newData
  induction newData with
  | nil => intro m p _; rfl
  | cons n ns ih =>
    intro m p h
    rw [List.foldl_cons, ih (applyNewRow m n) p (fun x hx => h x (List.mem_cons_of_mem n hx)),
      findByPincode_applyNewRow m n p (h n (List.mem_cons_self n ns))]

/-- C10: the written table has at most one row per pincode; when the existing
CSV holds several rows with the same pincode, the table keeps (and merges
into) only the last such row read, so input duplicates are collapsed. -/
theorem gapfill_collapses_duplicate_pincodes (existingRows newData : List Record)
    (p : Str) :
    (tableKeys (update_existing_data existingRows newData).1).Nodup ∧
    (findByPincode (buildTable existingRows) p =
      existingRows.reverse.find? (fun r => r.pincode == p)) ∧
    ((∀ x ∈ newData, x.pincode ≠ p) →
      findByPincode (update_existing_data existingRows newData).1 p =
        existingRows.reverse.find? (fun r => r.pincode == p)) := by
  refine ⟨?_, findByPincode_buildTable existingRows p, ?_⟩
  · have h0 : (update_existing_data existingRows newData).1 =
        newData.foldl applyNewRow (buildTable existingRows) := rfl
    rw [h0, foldl_applyNewRow_keys]
    exact buildTable_keys_nodup existingRows
  · intro h
    have h0 : (update_existing_data existingRows newData).1 =
        newData.foldl applyNewRow (buildTable existingRows) := rfl
    rw [h0, findByPincode_foldl_applyNewRow newData (buildTable existingRows) p h,
      findByPincode_buildTable]

/-- Witness for C10: two stored rows share pincode 9 and the merge output
keeps the later one. -/
theorem gapfill_collapses_duplicate_pincodes_witness :
    findByPincode (update_existing_data [rowDupA, rowDupB] [rowNewC]).1 "9".data =
      [rowDupA, rowDupB].reverse.find? (fun r => r.pincode == "9".data) ∧
    [rowDupA, rowDupB].reverse.find? (fun r => r.pincode == "9".data) = some rowDupB := by
  constructor
  · exact (gapfill_collapses_duplicate_pincodes [rowDupA, rowDupB] [rowNewC]
      "9".data).2.2 (by decide)
  · decide

/-! Lemmas about the text scanners. -/

theorem searchFirst_eq_of_none_before (m : Str → Option Str) :
    ∀ (k : Nat) (s : Str), (∀ i < k, m (s.drop i) = none) → k ≤ s.length →
      searchFirst m s = searchFirst m (s.drop k) := by
  intro k
  induction k with
  | zero => intro s _ _; rfl
  | succ k ih =>
    intro s h hk
    match s with
    | [] => exact absurd hk (by simp)
    | c :: cs =>
      have h0 : m (c :: cs) = none := by simpa using h 0 (Nat.succ_pos k)
      have h1 : searchFirst m (c :: cs) = searchFirst m cs := by
        simp [searchFirst, h0]
      rw [h1]
      have h2 : ∀ i < k, m (cs.drop i) = none := by
        intro i hi
        simpa using h (i + 1) (by omega)
      have h3 : k ≤ cs.length := by simpa using hk
      exact ih cs h2 h3

theorem searchFirst_cons_of_some (m : Str → Option Str) (c : Char) (cs d : Str)
    (h : m (c :: cs) = some d) : searchFirst m (c :: cs) = d := by
  simp [searchFirst, h]

theorem litMatch_of_caselessList :
    ∀ (l s r : Str), caselessList l s = true → litMatch l (s ++ r) = some r := by
  intro l
  induction l with
  | nil =>
    intro s r h
    cases s with
    | nil => rfl
    | cons b s2 => simp [caselessList] at h
  | cons a l ih =>
    intro s r h
    cases s with
    | nil => simp [caselessList] at h
    | cons b s2 =>
      simp only [caselessList, Bool.and_eq_true] at h
      simp only [List.cons_append, litMatch, h.1, if_true]
      exact ih s2 r h.2

theorem caselessList_cons_inv (a : Char) (l s : Str)
    (h : caselessList (a :: l) s = true) :
    ∃ b s2, s = b :: s2 ∧ caselessEq a b = true ∧ caselessList l s2 = true := by
  cases s with
  | nil => simp [caselessList] at h
  | cons b s2 =>
    simp only [caselessList, Bool.and_eq_true] at h
    exact ⟨b, s2, rfl, h.1, h.2⟩

theorem takeWhile_dropWhile_append (p : Char → Bool) :
    ∀ (w b : Str), (∀ c ∈ w, p c = true) → headNot p b = true →
      (w ++ b).takeWhile p = w ∧ (w ++ b).dropWhile p = b := by
  intro w
  induction w with
  | nil =>
    intro b _ hb
    cases b with
    | nil => simp
    | cons c bs =>
      have hc : p c = false := by simpa [headNot] using hb
      simp [List.takeWhile_cons, List.dropWhile_cons, hc]
  | cons x xs ih =>
    intro b hw hb
    have hx : p x = true := hw x (List.mem_cons_self x xs)
    have := ih b (fun c hc => hw c (List.mem_cons_of_mem x hc)) hb
    simp [List.takeWhile_cons, List.dropWhile_cons, hx, this.1, this.2]

theorem takeWhile1_append (p : Char → Bool) (w b : Str) (hne : w ≠ [])
    (hw : ∀ c ∈ w, p c = true) (hb : headNot p b = true) :
    takeWhile1 p (w ++ b) = some (w, b) := by
  obtain ⟨tw, dw⟩ := takeWhile_dropWhile_append p w b hw hb
  cases w with
  | nil => exact absurd rfl hne
  | cons c cs =>
    simp only [List.cons_append] at tw dw
    simp [takeWhile1, tw, dw]

theorem isPySpace_eq_false_of_isPyDigit (c : Char) (h : isPyDigit c = true) :
    isPySpace c = false := by
  simp only [isPyDigit, Bool.and_eq_true, decide_eq_true_eq] at h
  simp only [isPySpace, Bool.or_eq_false_iff, decide_eq_false_iff_not]
  omega

theorem not_space_of_caselessEq (c0 c : Char) (h : caselessEq c0 c = true)
    (h0 : 64 < lowerNat c0) : isPySpace c = false := by
  have heq : lowerNat c0 = lowerNat c := by
    simpa [caselessEq] using h
  have hc : 64 < lowerNat c := heq ▸ h0
  have hcn : 64 < c.toNat := by
    unfold lowerNat at hc
    split at hc <;> omega
  simp only [isPySpace, Bool.or_eq_false_iff, decide_eq_false_iff_not]
  omega

theorem caselessEq_eq_false_of_space (c0 c : Char) (hc : isPySpace c = true)
    (h0 : 64 < lowerNat c0) : caselessEq c0 c = false := by
  cases h : caselessEq c0 c
  · rfl
  · rw [not_space_of_caselessEq c0 c h h0] at hc
    exact absurd hc (by simp)

theorem headNot_of_digit_head (d b : Str) (hd : d ≠ [])
    (hdall : ∀ c ∈ d, isPyDigit c = true) :
    headNot isPySpace (d ++ b) = true := by
  cases d with
  | nil => exact absurd rfl hd
  | cons x xs =>
    have := isPySpace_eq_false_of_isPyDigit x (hdall x (List.mem_cons_self x xs))
    simp [headNot, this]

theorem optChar_skip_space (c0 : Char) (h0 : 64 < lowerNat c0) :
    ∀ (w r : Str), w ≠ [] → (∀ c ∈ w, isPySpace c = true) →
      optChar c0 (w ++ r) = w ++ r := by
  intro w r hne hw
  cases w with
  | nil => exact absurd rfl hne
  | cons x xs =>
    have hx : caselessEq c0 x = false :=
      caselessEq_eq_false_of_space c0 x (hw x (List.mem_cons_self x xs)) h0
    simp [optChar, hx]

theorem optChar_consume (c x : Char) (s : Str) (h : caselessEq c x = true) :
    optChar c (x :: s) = s := by
  simp [optChar, h]

/-- C5 (amended): the `population` field equals the first run of digits
following the word `population` separated by one or more whitespace
characters (the separating whitespace is required, not optional, because the
pattern uses `\s+`); with no such occurrence the field is empty. -/
theorem population_requires_whitespace (a seg w d b : Str)
    (hseg : caselessList ("population".data) seg = true)
    (hw : w ≠ []) (hwall : ∀ c ∈ w, isPySpace c = true)
    (hd : d ≠ []) (hdall : ∀ c ∈ d, isPyDigit c = true)
    (hb : headNot isPyDigit b = true)
    (hfirst : ∀ i < a.length,
      matchPopAt ((a ++ (seg ++ (w ++ (d ++ b)))).drop i) = none) :
    searchFirst matchPopAt (a ++ (seg ++ (w ++ (d ++ b)))) = d := by
  have h1 : takeWhile1 isPySpace (w ++ (d ++ b)) = some (w, d ++ b) :=
    takeWhile1_append isPySpace w (d ++ b) hw hwall (headNot_of_digit_head d b hd hdall)
  have h3 : takeWhile1 isPyDigit (d ++ b) = some (d, b) :=
    takeWhile1_append isPyDigit d b hd hdall hb
  have hmatch : matchPopAt (seg ++ (w ++ (d ++ b))) = some d := by
    simp only [matchPopAt,
      litMatch_of_caselessList ("population".data) seg (w ++ (d ++ b)) hseg, h1, h3]
  have hlen : a.length ≤ (a ++ (seg ++ (w ++ (d ++ b)))).length := by simp
  rw [searchFirst_eq_of_none_before matchPopAt a.length _ hfirst hlen, List.drop_left]
  obtain ⟨b0, s2, hs, _, _⟩ :=
    caselessList_cons_inv 'p' ("opulation".data) seg (by exact hseg)
  subst hs
  rw [List.cons_append]
  exact searchFirst_cons_of_some matchPopAt b0 (s2 ++ (w ++ (d ++ b))) d
    (by rw [← List.cons_append]; exact hmatch)

/-- C5 counterexample: on the text `population45000` the code's pattern
(`\s+`, whitespace required) extracts nothing, while the claimed pattern with
optional whitespace would extract `45000`; extract returns a blank
`population` there. -/
theorem population_optional_whitespace_counterexample :
    searchFirst matchPopAt "population45000".data = [] ∧
    searchFirst matchPopClaimedAt "population45000".data = "45000".data ∧
    (scrape_geoiq "u".data "p".data
        (some ⟨none, "population45000".data⟩)).population = [] := by
  refine ⟨by decide, by decide, by decide⟩

/-- Witness for C5 at the spec's concrete example with a nonempty prefix. -/
theorem population_requires_whitespace_witness :
    searchFirst matchPopAt "zz population 45000 yy".data = "45000".data :=
  population_requires_whitespace "zz ".data "population".data [' '] "45000".data " yy".data
    (by decide) (by decide) (by decide) (by decide) (by decide) (by decide) (by decide)

/-- C6 counterexample: on the text `male population is 23000` the code's
pattern (`are?`, that is `ar` with optional `e`) extracts nothing, while the
claimed pattern accepting the `is` variant of the verb would extract `23000`;
extract returns a blank `male_population` there. -/
theorem male_verb_is_counterexample :
    searchFirst matchMaleAt "male population is 23000".data = [] ∧
    searchFirst matchMaleClaimedAt "male population is 23000".data = "23000".data ∧
    (scrape_geoiq "u".data "p".data
        (some ⟨none, "male population is 23000".data⟩)).male_population = [] := by
  refine ⟨by decide, by decide, by decide⟩

/-- C6 (amended): the `male_population` field equals the first run of digits
following the phrase `male population(s)` and then the verb written `ar` with
an optional trailing `e` (so `are` or `ar`, case-insensitively; the `is`
variant is not accepted), each part separated by one or more whitespace
characters; with no such occurrence the field is empty. -/
theorem male_verb_requires_ar (a segMale w1 segPop sPart w2 segAr ePart w3 d b : Str)
    (hm : caselessList ("male".data) segMale = true)
    (hw1 : w1 ≠ []) (hw1all : ∀ c ∈ w1, isPySpace c = true)
    (hp : caselessList ("population".data) segPop = true)
    (hs : sPart = [] ∨ ∃ sc, sPart = [sc] ∧ caselessEq 's' sc = true)
    (hw2 : w2 ≠ []) (hw2all : ∀ c ∈ w2, isPySpace c = true)
    (har : caselessList ("ar".data) segAr = true)
    (he : ePart = [] ∨ ∃ ec, ePart = [ec] ∧ caselessEq 'e' ec = true)
    (hw3 : w3 ≠ []) (hw3all : ∀ c ∈ w3, isPySpace c = true)
    (hd : d ≠ []) (hdall : ∀ c ∈ d, isPyDigit c = true)
    (hb : headNot isPyDigit b = true)
    (hfirst : ∀ i < a.length,
      matchMaleAt ((a ++ (segMale ++ (w1 ++ (segPop ++ (sPart ++ (w2 ++ (segAr ++
        (ePart ++ (w3 ++ (d ++ b)))))))))).drop i) = none) :
    searchFirst matchMaleAt
      (a ++ (segMale ++ (w1 ++ (segPop ++ (sPart ++ (w2 ++ (segAr ++
        (ePart ++ (w3 ++ (d ++ b)))))))))) = d := by
  obtain ⟨p0, ps2, hps, hcp, _⟩ :=
    caselessList_cons_inv 'p' ("opulation".data) segPop (by exact hp)
  obtain ⟨a0, as2, has, hca, _⟩ := caselessList_cons_inv 'a' ("r".data) segAr (by exact har)
  have hpns : isPySpace p0 = false :=
    not_space_of_caselessEq 'p' p0 hcp (by decide)
  have hans : isPySpace a0 = false :=
    not_space_of_caselessEq 'a' a0 hca (by decide)
  have h1 : takeWhile1 isPySpace
      (w1 ++ (segPop ++ (sPart ++ (w2 ++ (segAr ++ (ePart ++ (w3 ++ (d ++ b)))))))) =
      some (w1, segPop ++ (sPart ++ (w2 ++ (segAr ++ (ePart ++ (w3 ++ (d ++ b))))))) := by
    apply takeWhile1_append isPySpace w1 _ hw1 hw1all
    rw [hps]
    simp [headNot, List.cons_append, hpns]
  have hopt1 : optChar 's'
      (sPart ++ (w2 ++ (segAr ++ (ePart ++ (w3 ++ (d ++ b)))))) =
      w2 ++ (segAr ++ (ePart ++ (w3 ++ (d ++ b)))) := by
    rcases hs with hs | ⟨sc, hsc, hcs⟩
    · rw [hs, List.nil_append]
      exact optChar_skip_space 's' (by decide) w2 _ hw2 hw2all
    · rw [hsc, List.singleton_append]
      exact optChar_consume 's' sc _ hcs
  have h2 : takeWhile1 isPySpace
      (w2 ++ (segAr ++ (ePart ++ (w3 ++ (d ++ b))))) =
      some (w2, segAr ++ (ePart ++ (w3 ++ (d ++ b)))) := by
    apply takeWhile1_append isPySpace w2 _ hw2 hw2all
    rw [has]
    simp [headNot, List.cons_append, hans]
  have hopt2 : optChar 'e' (ePart ++ (w3 ++ (d ++ b))) = w3 ++ (d ++ b) := by
    rcases he with he | ⟨ec, hec, hce⟩
    · rw [he, List.nil_append]
      exact optChar_skip_space 'e' (by decide) w3 _ hw3 hw3all
    · rw [hec, List.singleton_append]
      exact optChar_consume 'e' ec _ hce
  have h3 : takeWhile1 isPySpace (w3 ++ (d ++ b)) = some (w3, d ++ b) :=
    takeWhile1_append isPySpace w3 (d ++ b) hw3 hw3all (headNot_of_digit_head d b hd hdall)
  have h4 : takeWhile1 isPyDigit (d ++ b) = some (d, b) :=
    takeWhile1_append isPyDigit d b hd hdall hb
  have hmatch : matchMaleAt (segMale ++ (w1 ++ (segPop ++ (sPart ++ (w2 ++ (segAr ++
      (ePart ++ (w3 ++ (d ++ b))))))))) = some d := by
    simp only [matchMaleAt,
      litMatch_of_caselessList ("male".data) segMale _ hm, h1,
      litMatch_of_caselessList ("population".data) segPop _ hp, hopt1, h2,
      litMatch_of_caselessList ("ar".data) segAr _ har, hopt2, h3, h4]
  have hlen : a.length ≤ (a ++ (segMale ++ (w1 ++ (segPop ++ (sPart ++ (w2 ++ (segAr ++
      (ePart ++ (w3 ++ (d ++ b)))))))))).length := by simp
  rw [searchFirst_eq_of_none_before matchMaleAt a.length _ hfirst hlen, List.drop_left]
  obtain ⟨m0, ms2, hms, _, _⟩ :=
    caselessList_cons_inv 'm' ("ale".data) segMale (by exact hm)
  subst hms
  rw [List.cons_append]
  exact searchFirst_cons_of_some matchMaleAt m0 _ d
    (by rw [← List.cons_append]; exact hmatch)

/-- Witness for C6 at the spec's concrete example sentence. -/
theorem male_verb_requires_ar_witness :
    searchFirst matchMaleAt "male population are 23000 and 22000 respectively".data =
      "23000".data :=
  male_verb_requires_ar [] "male".data [' '] "population".data [] [' '] "ar".data
    ['e'] [' '] "23000".data " and 22000 respectively".data
    (by decide) (by decide) (by decide) (by decide) (Or.inl rfl) (by decide) (by decide)
    (by decide) (Or.inr ⟨'e', rfl, by decide⟩) (by decide) (by decide) (by decide)
    (by decide) (by decide)
    (fun i hi => absurd hi (Nat.not_lt_zero i))
